import Mathlib

/-!
Verification of the `transform` package (file `transform/parse.go`) of the
fsql repository: a shallow embedding of the recursive value-transformation
engine `Parse` together with its helpers `pFormat`, `pFormatSize` and
`pFormatTime`, and proofs of the behavioural properties of that engine.

Modelling conventions:
* Go runtime values (`interface\x7b\x7d`) become the inductive type `Value`.
  Slices and arrays are both represented by `Value.list`; maps become
  association lists of key/value pairs (`Value.map`), matching the untyped
  `map[interface\x7b\x7d]interface\x7b\x7d` shape the engine is written against.
* Go `float64` values are modelled exactly as rationals; every numeric
  value reachable in the proofs below is exactly representable.
* A Go runtime panic (failed type assertion, index out of range, or
  calling `Kind()` on the `nil` reflect type) has no Go error value; it is
  modelled as a distinguished `PError` constructor for which `PError.isPanic`
  is `true`, so panics stay separate from returned `error` values.
* `Parse` mutates slice elements in place via `reflect.Value.Set`; the
  embedding returns, next to the `(val, err)` result, the final state of
  the value that was passed in, so that partial in-place mutation on
  failure is observable.
-/

/-- A structured point in time, the shallow model of Go `time.Time` as far
as the engine observes it: broken-down calendar fields plus a fixed zone
offset in minutes (zone names parsed from text are validated and then
dropped, as no claim observes them). -/
structure GoTime where
  year : Nat
  month : Nat
  day : Nat
  hour : Nat
  minute : Nat
  second : Nat
  offsetMinutes : Int
deriving DecidableEq

/-- The shallow embedding of the Go `interface\x7b\x7d` values the engine
classifies with `reflect.TypeOf(p.Value).Kind()`: `nil`, strings, numbers,
booleans and times are scalars, slices/arrays are `list`, and maps are
`map` (an association list of entries). -/
inductive Value where
  | nil
  | str (s : String)
  | num (q : ℚ)
  | bool (b : Bool)
  | time (t : GoTime)
  | list (elems : List Value)
  | map (entries : List (Value × Value))

mutual
def decEqV : (a b : Value) → Decidable (a = b)
  | .nil, .nil => isTrue rfl
  | .nil, .str _ => isFalse (fun h => Value.noConfusion h)
  | .nil, .num _ => isFalse (fun h => Value.noConfusion h)
  | .nil, .bool _ => isFalse (fun h => Value.noConfusion h)
  | .nil, .time _ => isFalse (fun h => Value.noConfusion h)
  | .nil, .list _ => isFalse (fun h => Value.noConfusion h)
  | .nil, .map _ => isFalse (fun h => Value.noConfusion h)
  | .str _, .nil => isFalse (fun h => Value.noConfusion h)
  | .str s, .str t =>
    match decEq s t with
    | isTrue h => isTrue (by rw [h])
    | isFalse h => isFalse (fun hh => h (by injection hh))
  | .str _, .num _ => isFalse (fun h => Value.noConfusion h)
  | .str _, .bool _ => isFalse (fun h => Value.noConfusion h)
  | .str _, .time _ => isFalse (fun h => Value.noConfusion h)
  | .str _, .list _ => isFalse (fun h => Value.noConfusion h)
  | .str _, .map _ => isFalse (fun h => Value.noConfusion h)
  | .num _, .nil => isFalse (fun h => Value.noConfusion h)
  | .num _, .str _ => isFalse (fun h => Value.noConfusion h)
  | .num p, .num q =>
    match decEq p q with
    | isTrue h => isTrue (by rw [h])
    | isFalse h => isFalse (fun hh => h (by injection hh))
  | .num _, .bool _ => isFalse (fun h => Value.noConfusion h)
  | .num _, .time _ => isFalse (fun h => Value.noConfusion h)
  | .num _, .list _ => isFalse (fun h => Value.noConfusion h)
  | .num _, .map _ => isFalse (fun h => Value.noConfusion h)
  | .bool _, .nil => isFalse (fun h => Value.noConfusion h)
  | .bool _, .str _ => isFalse (fun h => Value.noConfusion h)
  | .bool _, .num _ => isFalse (fun h => Value.noConfusion h)
  | .bool a, .bool b =>
    match decEq a b with
    | isTrue h => isTrue (by rw [h])
    | isFalse h => isFalse (fun hh => h (by injection hh))
  | .bool _, .time _ => isFalse (fun h => Value.noConfusion h)
  | .bool _, .list _ => isFalse (fun h => Value.noConfusion h)
  | .bool _, .map _ => isFalse (fun h => Value.noConfusion h)
  | .time _, .nil => isFalse (fun h => Value.noConfusion h)
  | .time _, .str _ => isFalse (fun h => Value.noConfusion h)
  | .time _, .num _ => isFalse (fun h => Value.noConfusion h)
  | .time _, .bool _ => isFalse (fun h => Value.noConfusion h)
  | .time a, .time b =>
    match decEq a b with
    | isTrue h => isTrue (by rw [h])
    | isFalse h => isFalse (fun hh => h (by injection hh))
  | .time _, .list _ => isFalse (fun h => Value.noConfusion h)
  | .time _, .map _ => isFalse (fun h => Value.noConfusion h)
  | .list _, .nil => isFalse (fun h => Value.noConfusion h)
  | .list _, .str _ => isFalse (fun h => Value.noConfusion h)
  | .list _, .num _ => isFalse (fun h => Value.noConfusion h)
  | .list _, .bool _ => isFalse (fun h => Value.noConfusion h)
  | .list _, .time _ => isFalse (fun h => Value.noConfusion h)
  | .list es, .list fs =>
    match decEqL es fs with
    | isTrue h => isTrue (by rw [h])
    | isFalse h => isFalse (fun hh => h (by injection hh))
  | .list _, .map _ => isFalse (fun h => Value.noConfusion h)
  | .map _, .nil => isFalse (fun h => Value.noConfusion h)
  | .map _, .str _ => isFalse (fun h => Value.noConfusion h)
  | .map _, .num _ => isFalse (fun h => Value.noConfusion h)
  | .map _, .bool _ => isFalse (fun h => Value.noConfusion h)
  | .map _, .time _ => isFalse (fun h => Value.noConfusion h)
  | .map _, .list _ => isFalse (fun h => Value.noConfusion h)
  | .map es, .map fs =>
    match decEqE es fs with
    | isTrue h => isTrue (by rw [h])
    | isFalse h => isFalse (fun hh => h (by injection hh))

def decEqL : (a b : List Value) → Decidable (a = b)
  | [], [] => isTrue rfl
  | [], _ :: _ => isFalse (fun h => List.noConfusion h)
  | _ :: _, [] => isFalse (fun h => List.noConfusion h)
  | a :: as, b :: bs =>
    match decEqV a b with
    | isFalse h => isFalse (fun hh => h (by injection hh))
    | isTrue h1 =>
      match decEqL as bs with
      | isTrue h2 => isTrue (by rw [h1, h2])
      | isFalse h2 => isFalse (fun hh => h2 (by injection hh))

def decEqE : (a b : List (Value × Value)) → Decidable (a = b)
  | [], [] => isTrue rfl
  | [], _ :: _ => isFalse (fun h => List.noConfusion h)
  | _ :: _, [] => isFalse (fun h => List.noConfusion h)
  | (a1, a2) :: as, (b1, b2) :: bs =>
    match decEqV a1 b1 with
    | isFalse h => isFalse (fun hh => h (by injection hh with h1 h2; injection h1))
    | isTrue h1 =>
      match decEqV a2 b2 with
      | isFalse h => isFalse (fun hh => h (by injection hh with h3 h4; injection h3))
      | isTrue h2 =>
        match decEqE as bs with
        | isTrue h3 => isTrue (by rw [h1, h2, h3])
        | isFalse h3 => isFalse (fun hh => h3 (by injection hh))
end

instance : DecidableEq Value := decEqV

/-- A value is a scalar when `reflect.TypeOf(p.Value).Kind()` is neither
`Slice`/`Array` nor `Map` (and the value is not `nil`): strings, numbers,
booleans and times. -/
def isScalar : Value → Bool
  | .str _ => true
  | .num _ => true
  | .bool _ => true
  | .time _ => true
  | _ => false

/-- A value is string-typed, i.e. the Go type assertion `.(string)` on it
succeeds. -/
def isStr : Value → Bool
  | .str _ => true
  | _ => false

/-- The failure outcomes of a call into the engine.  `notImplemented` and
`unsupportedFormat` model the structured error types `ErrNotImplemented`
and `ErrUnsupportedFormat` (repository code outside `transform/parse.go`;
their fields are exactly the two strings `parse.go` constructs them with).
`floatParseErr` and `timeParseErr` model the forwarded `strconv` / `time`
parse errors.  The three `panic*` constructors model Go runtime panics,
which are not `error` values at all; `PError.isPanic` separates them. -/
inductive PError where
  | notImplemented (name attr : String)
  | unsupportedFormat (variant attr : String)
  | floatParseErr (s : String)
  | timeParseErr (layout s : String)
  | panicNilValue
  | panicTypeAssert (expected : String)
  | panicIndexRange (i : Nat)
deriving DecidableEq

/-- Whether a `PError` models a runtime panic rather than a returned Go
`error` value. -/
def PError.isPanic : PError → Bool
  | .panicNilValue => true
  | .panicTypeAssert _ => true
  | .panicIndexRange _ => true
  | _ => false

/-- ASCII upper-casing of one character. -/
def upperChar (c : Char) : Char :=
  if 'a' ≤ c ∧ c ≤ 'z' then Char.ofNat (c.toNat - 32) else c

/-- ASCII lower-casing of one character. -/
def lowerChar (c : Char) : Char :=
  if 'A' ≤ c ∧ c ≤ 'Z' then Char.ofNat (c.toNat + 32) else c

/-- Modelled from the spec: the `upper` helper lives in the repository
outside `transform/parse.go`; per the spec it is a locale-insensitive
upper-case conversion (Go `strings.ToUpper`), modelled here on the ASCII
range.  The same function models the `strings.ToUpper` calls that
`parse.go` itself makes on modifier names and unit arguments. -/
def upper (s : String) : String := String.mk (s.data.map upperChar)

/-- Modelled from the spec: the `lower` helper lives in the repository
outside `transform/parse.go`; per the spec it is a locale-insensitive
lower-case conversion (Go `strings.ToLower`), modelled on ASCII. -/
def lower (s : String) : String := String.mk (s.data.map lowerChar)

/-- Modelled from the spec: `formatName` lives in the repository outside
`transform/parse.go`.  Per the spec, `args[0]` selects a naming
convention and an unrecognized convention identifier yields no value,
which `pFormat` then turns into `UnsupportedFormat(args[0], "name")`.
The spec does not enumerate any recognized convention identifiers, so
this model recognizes none; no claim depends on a recognized one. -/
def formatName (_conv _s : String) : Option String := none

/-- Numeric value of an ASCII digit. -/
def digitVal (c : Char) : Nat := c.toNat - 48

/-- Splits a character list into its longest ASCII-digit prefix and the
rest. -/
def readDigits : List Char → List Char × List Char
  | [] => ([], [])
  | c :: cs =>
    if c.isDigit then
      match readDigits cs with
      | (ds, rest) => (c :: ds, rest)
    else ([], c :: cs)

/-- The natural number denoted by a list of ASCII digits. -/
def digitsToNat (ds : List Char) : Nat := ds.foldl (fun a c => a * 10 + digitVal c) 0

/-- The syntactic parts of a decimal float literal: sign, mantissa digits
read as a natural number, number of fraction digits, and a signed decimal
exponent. -/
structure FloatParts where
  neg : Bool
  mantissa : Nat
  fracLen : Nat
  expNeg : Bool
  expVal : Nat
deriving DecidableEq

/-- The exact rational value denoted by decimal float parts. -/
def partsVal (p : FloatParts) : ℚ :=
  let m : ℚ := (p.mantissa : ℚ) / 10 ^ p.fracLen
  let e : ℚ := if p.expNeg then m / 10 ^ p.expVal else m * 10 ^ p.expVal
  if p.neg then -e else e

/-- Exponent-part tail of a decimal float literal: at least one digit,
consuming the whole remaining input. -/
def expDigits (neg : Bool) (mant fracLen : Nat) (pos : Bool) (rest : List Char) :
    Option FloatParts :=
  match readDigits rest with
  | (eds, rest2) =>
    if eds.length = 0 ∨ rest2 ≠ [] then none
    else some ⟨neg, mant, fracLen, !pos, digitsToNat eds⟩

/-- Exponent part of a decimal float literal after the `e`/`E` marker:
optional sign, then digits. -/
def expPart (neg : Bool) (mant fracLen : Nat) : List Char → Option FloatParts
  | '+' :: rest => expDigits neg mant fracLen true rest
  | '-' :: rest => expDigits neg mant fracLen false rest
  | rest => expDigits neg mant fracLen true rest

/-- Syntactic phase of the decimal float parser: optional sign, digits
with at most one decimal point and at least one digit overall, optional
decimal exponent. -/
def parseFloatParts (s : String) : Option FloatParts :=
  match s.data with
  | [] => none
  | cs0 =>
    let sc : Bool × List Char :=
      match cs0 with
      | '+' :: rest => (false, rest)
      | '-' :: rest => (true, rest)
      | _ => (false, cs0)
    match sc with
    | (neg, cs1) =>
      match readDigits cs1 with
      | (intDs, cs2) =>
        let fc : List Char × List Char :=
          match cs2 with
          | '.' :: rest => readDigits rest
          | _ => ([], cs2)
        match fc with
        | (fracDs, cs3) =>
          if intDs.length + fracDs.length = 0 then none
          else
            let mant := digitsToNat (intDs ++ fracDs)
            match cs3 with
            | [] => some ⟨neg, mant, fracDs.length, false, 0⟩
            | 'e' :: rest => expPart neg mant fracDs.length rest
            | 'E' :: rest => expPart neg mant fracDs.length rest
            | _ => none

/-- Modelled from the spec: Go `strconv.ParseFloat(s, 64)` as used by
`pFormatSize`, restricted to ordinary decimal literals (optional sign,
digits with at most one decimal point and at least one digit, optional
decimal exponent; no `Inf`/`NaN`, no hexadecimal floats, no digit-group
underscores).  The numeric result is exact, as a rational. -/
def parseFloat (s : String) : Option ℚ := (parseFloatParts s).map partsVal

/-- The Go `time.RFC3339` layout constant. -/
def rfc3339Layout : String := "2006-01-02T15:04:05Z07:00"

/-- The Go `time.UnixDate` layout constant. -/
def unixDateLayout : String := "Mon Jan _2 15:04:05 MST 2006"

/-- The literal fallback layout appearing in `pFormatTime`. -/
def defaultTimeLayout : String := "Jan 02 2006 15 04"

/-- Reads exactly `n` more ASCII digits, accumulating their value. -/
def readFixedNat : Nat → Nat → List Char → Option (Nat × List Char)
  | 0, acc, cs => some (acc, cs)
  | n + 1, acc, c :: cs =>
    if c.isDigit then readFixedNat n (acc * 10 + digitVal c) cs else none
  | _ + 1, _, [] => none

/-- Consumes one expected character. -/
def expectChar (c : Char) : List Char → Option (List Char)
  | d :: cs => if d = c then some cs else none
  | [] => none

/-- The twelve English month abbreviations, in month order. -/
def monthAbbrs : List String :=
  ["Jan", "Feb", "Mar", "Apr", "May", "Jun", "Jul", "Aug", "Sep", "Oct", "Nov", "Dec"]

/-- The seven English weekday abbreviations. -/
def weekdayAbbrs : List String := ["Sun", "Mon", "Tue", "Wed", "Thu", "Fri", "Sat"]

/-- Index of a token in a list of abbreviations. -/
def abbrIndex (tok : String) : List String → Option Nat
  | [] => none
  | a :: rest => if a = tok then some 0 else (abbrIndex tok rest).map (· + 1)

/-- Reads a three-letter month abbreviation, yielding the month number
(1 to 12). -/
def readMonthAbbr : List Char → Option (Nat × List Char)
  | a :: b :: c :: rest =>
    match abbrIndex (String.mk [a, b, c]) monthAbbrs with
    | some i => some (i + 1, rest)
    | none => none
  | _ => none

/-- Reads a three-letter weekday abbreviation (Go layout `Mon`); the
weekday is not cross-checked against the date, matching Go `time.Parse`. -/
def readWeekdayAbbr : List Char → Option (Nat × List Char)
  | a :: b :: c :: rest =>
    match abbrIndex (String.mk [a, b, c]) weekdayAbbrs with
    | some i => some (i, rest)
    | none => none
  | _ => none

/-- Reads a space-padded day of month (Go layout `_2`): either a space
followed by one digit, or two digits. -/
def readSpacePadDay : List Char → Option (Nat × List Char)
  | ' ' :: c :: rest => if c.isDigit then some (digitVal c, rest) else none
  | c1 :: c2 :: rest =>
    if c1.isDigit && c2.isDigit then some (digitVal c1 * 10 + digitVal c2, rest) else none
  | _ => none

/-- Reads a time-zone abbreviation (Go layout `MST`): one or more
upper-case ASCII letters.  The name is validated and returned but the
engine never gives it an offset, so callers drop it. -/
def readZoneAbbr (cs : List Char) : Option (String × List Char) :=
  let letters := cs.takeWhile (fun c => c.isUpper)
  if letters.length ≥ 1 then some (String.mk letters, cs.drop letters.length) else none

/-- Reads an RFC 3339 zone suffix: `Z` or a signed `HH:MM` offset,
yielding the offset in minutes. -/
def readTZOffset : List Char → Option (Int × List Char)
  | 'Z' :: rest => some (0, rest)
  | '+' :: rest => do
    let (h, rest1) ← readFixedNat 2 0 rest
    let rest2 ← expectChar ':' rest1
    let (m, rest3) ← readFixedNat 2 0 rest2
    if h ≤ 23 ∧ m ≤ 59 then some (((h * 60 + m : Nat) : Int), rest3) else none
  | '-' :: rest => do
    let (h, rest1) ← readFixedNat 2 0 rest
    let rest2 ← expectChar ':' rest1
    let (m, rest3) ← readFixedNat 2 0 rest2
    if h ≤ 23 ∧ m ≤ 59 then some (-((h * 60 + m : Nat) : Int), rest3) else none
  | _ => none

/-- Gregorian leap-year rule. -/
def isLeapYear (y : Nat) : Bool := (y % 4 = 0 && y % 100 != 0) || y % 400 = 0

/-- Number of days in a month of a given year. -/
def daysInMonth (y m : Nat) : Nat :=
  if m = 2 then (if isLeapYear y then 29 else 28)
  else if m = 4 ∨ m = 6 ∨ m = 9 ∨ m = 11 then 30
  else 31

/-- Validity of the calendar and clock fields a layout parse produced,
matching the range checks of Go `time.Parse` (seconds fixed to a
0 to 59 range; leap seconds are out of scope). -/
def fieldsOk (y mo d h mi se : Nat) : Bool :=
  decide (1 ≤ mo) && decide (mo ≤ 12) && decide (1 ≤ d) && decide (d ≤ daysInMonth y mo)
    && decide (h ≤ 23) && decide (mi ≤ 59) && decide (se ≤ 59)

/-- Modelled from the spec: Go `time.Parse` with the `time.RFC3339`
layout, an ISO-8601 extended timestamp (full date, `T`, full clock time,
and a `Z` or signed `HH:MM` zone offset; fractional seconds omitted from
the model). -/
def parseRFC3339 (s : String) : Option GoTime := do
  let cs := s.data
  let (y, cs1) ← readFixedNat 4 0 cs
  let cs2 ← expectChar '-' cs1
  let (mo, cs3) ← readFixedNat 2 0 cs2
  let cs4 ← expectChar '-' cs3
  let (d, cs5) ← readFixedNat 2 0 cs4
  let cs6 ← expectChar 'T' cs5
  let (h, cs7) ← readFixedNat 2 0 cs6
  let cs8 ← expectChar ':' cs7
  let (mi, cs9) ← readFixedNat 2 0 cs8
  let cs10 ← expectChar ':' cs9
  let (se, cs11) ← readFixedNat 2 0 cs10
  let (off, cs12) ← readTZOffset cs11
  if cs12 = [] ∧ fieldsOk y mo d h mi se then
    some ⟨y, mo, d, h, mi, se, off⟩
  else none

/-- Modelled from the spec: Go `time.Parse` with the `time.UnixDate`
layout `Mon Jan _2 15:04:05 MST 2006` — a textual date-command style
layout (weekday abbreviation, month abbreviation, space-padded day,
clock time, zone abbreviation, four-digit year), not epoch seconds. -/
def parseUnixDate (s : String) : Option GoTime := do
  let cs := s.data
  let (_, cs1) ← readWeekdayAbbr cs
  let cs2 ← expectChar ' ' cs1
  let (mo, cs3) ← readMonthAbbr cs2
  let cs4 ← expectChar ' ' cs3
  let (d, cs5) ← readSpacePadDay cs4
  let cs6 ← expectChar ' ' cs5
  let (h, cs7) ← readFixedNat 2 0 cs6
  let cs8 ← expectChar ':' cs7
  let (mi, cs9) ← readFixedNat 2 0 cs8
  let cs10 ← expectChar ':' cs9
  let (se, cs11) ← readFixedNat 2 0 cs10
  let cs12 ← expectChar ' ' cs11
  let (_, cs13) ← readZoneAbbr cs12
  let cs14 ← expectChar ' ' cs13
  let (y, cs15) ← readFixedNat 4 0 cs14
  if cs15 = [] ∧ fieldsOk y mo d h mi se then
    some ⟨y, mo, d, h, mi, se, 0⟩
  else none

/-- Modelled from the spec: Go `time.Parse` with the literal fallback
layout `Jan 02 2006 15 04` — month abbreviation, two-digit day,
four-digit year, and hour and minute only (no seconds, no zone). -/
def parseDefaultLayout (s : String) : Option GoTime := do
  let cs := s.data
  let (mo, cs1) ← readMonthAbbr cs
  let cs2 ← expectChar ' ' cs1
  let (d, cs3) ← readFixedNat 2 0 cs2
  let cs4 ← expectChar ' ' cs3
  let (y, cs5) ← readFixedNat 4 0 cs4
  let cs6 ← expectChar ' ' cs5
  let (h, cs7) ← readFixedNat 2 0 cs6
  let cs8 ← expectChar ' ' cs7
  let (mi, cs9) ← readFixedNat 2 0 cs8
  if cs9 = [] ∧ fieldsOk y mo d h mi 0 then
    some ⟨y, mo, d, h, mi, 0, 0⟩
  else none

/-- Modelled from the spec: Go `time.Parse(layout, s)` restricted to the
three layout constants `pFormatTime` passes it.  A failed parse becomes a
forwarded `timeParseErr`, the model of the `*time.ParseError` that
`time.Parse` returns. -/
def timeParse (layout s : String) : Except PError GoTime :=
  let r : Option GoTime :=
    if layout = rfc3339Layout then parseRFC3339 s
    else if layout = unixDateLayout then parseUnixDate s
    else if layout = defaultTimeLayout then parseDefaultLayout s
    else none
  match r with
  | some t => .ok t
  | none => .error (.timeParseErr layout s)

/-- `pFormatSize` from `transform/parse.go`: type-asserts the value to a
string, parses it with `strconv.ParseFloat`, then scales by a unit factor
selected case-insensitively from `args[0]` (`B`, `KB`, `MB`, `GB`; note
the source scales `GB` by `1 <<< 20`, the same factor as `MB`).  An
unknown unit yields `(nil, nil)`, here `Except.ok none`. -/
def pFormatSize (ar : List String) (v : Value) : Except PError (Option Value) :=
  match v with
  | .str s =>
    match parseFloat s with
    | none => .error (.floatParseErr s)
    | some x =>
      match ar.head? with
      | none => .error (.panicIndexRange 0)
      | some u =>
        if upper u = "B" then .ok (some (.num (x * 1)))
        else if upper u = "KB" then .ok (some (.num (x * 1024)))
        else if upper u = "MB" then .ok (some (.num (x * 1048576)))
        else if upper u = "GB" then .ok (some (.num (x * 1048576)))
        else .ok none
  | _ => .error (.panicTypeAssert "string")

/-- `pFormatTime` from `transform/parse.go`: selects a layout from
`strings.ToUpper(p.Args[0])` (`ISO` is `time.RFC3339`, `UNIX` is
`time.UnixDate`, anything else the literal `Jan 02 2006 15 04`), then
parses the string value with it.  Accessing `p.Args[0]` with empty args
is an index-out-of-range panic. -/
def pFormatTime (ar : List String) (v : Value) : Except PError (Option Value) :=
  match ar.head? with
  | none => .error (.panicIndexRange 0)
  | some u =>
    let layout :=
      if upper u = "ISO" then rfc3339Layout
      else if upper u = "UNIX" then unixDateLayout
      else defaultTimeLayout
    match v with
    | .str s =>
      match timeParse layout s with
      | .ok t => .ok (some (.time t))
      | .error e => .error e
    | _ => .error (.panicTypeAssert "string")

/-- `pFormat` from `transform/parse.go`: sub-dispatches on the attribute
(case-sensitively).  After the switch, a non-nil error is returned as is
and a `nil` value with `nil` error becomes
`ErrUnsupportedFormat\x7bp.Args[0], p.Attribute\x7d` — which itself reads
`p.Args[0]` and so panics when the args are empty. -/
def pFormat (attr : String) (ar : List String) (v : Value) : Except PError (Option Value) :=
  let r : Except PError (Option Value) :=
    if attr = "name" then
      match ar.head? with
      | none => .error (.panicIndexRange 0)
      | some conv =>
        match v with
        | .str s => .ok ((formatName conv s).map Value.str)
        | _ => .error (.panicTypeAssert "string")
    else if attr = "size" then pFormatSize ar v
    else if attr = "time" then pFormatTime ar v
    else .ok none
  match r with
  | .error e => .error e
  | .ok none =>
    match ar.head? with
    | none => .error (.panicIndexRange 0)
    | some u => .error (.unsupportedFormat u attr)
  | .ok (some w) => .ok (some w)

/-- The scalar arm of `Parse`: the `switch strings.ToUpper(p.Name)`
dispatch over the three registered modifiers, followed by the shared
checks `if err != nil` and `if val == nil` (the latter producing
`ErrNotImplemented\x7bp.Name, p.Attribute\x7d`).  `UPPER` and `LOWER` perform
the unchecked type assertion `p.Value.(string)`. -/
def parseScalar (attr nm : String) (ar : List String) (v : Value) : Except PError Value :=
  let r : Except PError (Option Value) :=
    if upper nm = "FORMAT" then pFormat attr ar v
    else if upper nm = "UPPER" then
      match v with
      | .str s => .ok (some (.str (upper s)))
      | _ => .error (.panicTypeAssert "string")
    else if upper nm = "LOWER" then
      match v with
      | .str s => .ok (some (.str (lower s)))
      | _ => .error (.panicTypeAssert "string")
    else .ok none
  match r with
  | .error e => .error e
  | .ok none => .error (.notImplemented nm attr)
  | .ok (some w) => .ok w

/-- Go map assignment `m[k] = v` on the association-list model: replaces
the payload of an existing equal key, otherwise appends a new entry. -/
def mapInsert (m : List (Value × Value)) (k v : Value) : List (Value × Value) :=
  match m with
  | [] => [(k, v)]
  | (k2, v2) :: rest => if k2 = k then (k2, v) :: rest else (k2, v2) :: mapInsert rest k v

mutual
/-- `Parse` from `transform/parse.go`.  The `ParseParams` fields
`Attribute`, `Name`, `Args` and `Value` are passed as explicit arguments
`attr`, `nm`, `ar` and the `Value` argument.  The first component of the
result is the final state of the value passed in (observing the in-place
`reflect.Value.Set` writes into slices); the second is the `(val, err)`
result.  A `nil` value panics at classification, since
`reflect.TypeOf(nil).Kind()` dereferences a nil `reflect.Type`. -/
def Parse (attr nm : String) (ar : List String) : Value → Value × Except PError Value
  | .nil => (.nil, .error .panicNilValue)
  | .list es =>
    match goList attr nm ar es with
    | (es2, none) => (.list es2, .ok (.list es2))
    | (es2, some e) => (.list es2, .error e)
  | .map es =>
    match goMap attr nm ar es [] with
    | .ok out => (.map es, .ok (.map out))
    | .error e => (.map es, .error e)
  | .str s => (.str s, parseScalar attr nm ar (.str s))
  | .num q => (.num q, parseScalar attr nm ar (.num q))
  | .bool b => (.bool b, parseScalar attr nm ar (.bool b))
  | .time t => (.time t, parseScalar attr nm ar (.time t))

/-- The slice/array loop of `Parse`: each element is transformed in index
order and written back in place; the first failure aborts, leaving the
already-written prefix and the untouched suffix in the backing store and
the failing slot showing its own final state. -/
def goList (attr nm : String) (ar : List String) : List Value → List Value × Option PError
  | [] => ([], none)
  | v :: vs =>
    match Parse attr nm ar v with
    | (vSt, .error e) => (vSt :: vs, some e)
    | (_, .ok r) =>
      match goList attr nm ar vs with
      | (vs2, e?) => (r :: vs2, e?)

/-- The map loop of `Parse`: each key (never the payload) is transformed
and inserted into a brand-new map with payload `true`; the first failure
aborts the whole call and discards the new map. -/
def goMap (attr nm : String) (ar : List String) :
    List (Value × Value) → List (Value × Value) → Except PError (List (Value × Value))
  | [], acc => .ok acc
  | (k, _) :: rest, acc =>
    match Parse attr nm ar k with
    | (_, .ok r) => goMap attr nm ar rest (mapInsert acc r (.bool true))
    | (_, .error e) => .error e
end

/-- Wrapping of a time-parse result as the engine returns it: a parsed
time becomes a scalar time value, a parse failure is forwarded as is. -/
def timeWrap : Except PError GoTime → Except PError Value
  | .ok t => .ok (.time t)
  | .error e => .error e

/-- On a scalar value, `Parse` performs no recursion and no mutation: it
hands the value to the modifier dispatch. -/
theorem Parse_scalar_eq (attr nm : String) (ar : List String) (v : Value)
    (h : isScalar v = true) :
    Parse attr nm ar v = (v, parseScalar attr nm ar v) := by
  cases v <;> simp_all [Parse, isScalar]

/-- Unfolding of `Parse` on a list value. -/
theorem Parse_list_eq (attr nm : String) (ar : List String) (es : List Value) :
    Parse attr nm ar (.list es) =
      (match goList attr nm ar es with
       | (es2, none) => (.list es2, .ok (.list es2))
       | (es2, some e) => (.list es2, .error e)) := by
  simp [Parse]

/-- Unfolding of `Parse` on a map value. -/
theorem Parse_map_eq (attr nm : String) (ar : List String) (es : List (Value × Value)) :
    Parse attr nm ar (.map es) =
      (match goMap attr nm ar es [] with
       | .ok out => (.map es, .ok (.map out))
       | .error e => (.map es, .error e)) := by
  simp [Parse]

/-- If every element of a list transforms successfully, the element loop
returns the transformed elements in order with no error. -/
theorem goList_all_ok (attr nm : String) (ar : List String) {l ts : List Value}
    (h : List.Forall₂ (fun v t => (Parse attr nm ar v).2 = .ok t) l ts) :
    goList attr nm ar l = (ts, none) := by
  induction h with
  | nil => simp [goList]
  | @cons v t l2 ts2 hvt _ ih =>
    rcases hE : Parse attr nm ar v with ⟨st, res⟩
    rw [hE] at hvt
    simp only at hvt
    subst hvt
    simp [goList, hE, ih]

/-- If the elements of a prefix all transform successfully and the next
element fails, the element loop stops there: the backing store holds the
transformed prefix, the failing slot in its own final state, and the
untouched suffix, and the element error is reported. -/
theorem goList_error (attr nm : String) (ar : List String) {pre ts : List Value}
    (x : Value) (suf : List Value) {e : PError}
    (hpre : List.Forall₂ (fun v t => (Parse attr nm ar v).2 = .ok t) pre ts)
    (hx : (Parse attr nm ar x).2 = .error e) :
    goList attr nm ar (pre ++ x :: suf) =
      (ts ++ (Parse attr nm ar x).1 :: suf, some e) := by
  induction hpre with
  | nil =>
    rcases hE : Parse attr nm ar x with ⟨st, res⟩
    rw [hE] at hx
    simp only at hx
    subst hx
    simp [goList, hE]
  | @cons v t l2 ts2 hvt _ ih =>
    rcases hE : Parse attr nm ar v with ⟨st, res⟩
    rw [hE] at hvt
    simp only at hvt
    subst hvt
    simp [goList, hE, ih]

/-- Every entry of `mapInsert m k v` carries either the new payload `v`
or an unchanged entry of `m`. -/
theorem mapInsert_mem_payload {m : List (Value × Value)} {k v : Value} :
    ∀ p ∈ mapInsert m k v, p.2 = v ∨ p ∈ m := by
  induction m with
  | nil => simp [mapInsert]
  | cons hd tl ih =>
    rcases hd with ⟨k2, v2⟩
    by_cases hk : k2 = k
    · intro p hp
      simp only [mapInsert, if_pos hk, List.mem_cons] at hp
      rcases hp with h | h
      · subst h; left; rfl
      · right; exact List.mem_cons_of_mem _ h
    · intro p hp
      simp only [mapInsert, if_neg hk, List.mem_cons] at hp
      rcases hp with h | h
      · right; subst h; exact List.mem_cons_self _ _
      · rcases ih p h with h2 | h2
        · left; exact h2
        · right; exact List.mem_cons_of_mem _ h2

/-- Every key of `mapInsert m k v` is `k` or a key of `m`. -/
theorem mapInsert_mem_key {m : List (Value × Value)} {k v : Value} :
    ∀ p ∈ mapInsert m k v, p.1 = k ∨ ∃ q ∈ m, q.1 = p.1 := by
  induction m with
  | nil => simp [mapInsert]
  | cons hd tl ih =>
    rcases hd with ⟨k2, v2⟩
    by_cases hk : k2 = k
    · intro p hp
      simp only [mapInsert, if_pos hk, List.mem_cons] at hp
      rcases hp with h | h
      · subst h; left; exact hk
      · right; exact ⟨p, List.mem_cons_of_mem _ h, rfl⟩
    · intro p hp
      simp only [mapInsert, if_neg hk, List.mem_cons] at hp
      rcases hp with h | h
      · subst h; right; exact ⟨(k2, v2), List.mem_cons_self _ _, rfl⟩
      · rcases ih p h with h2 | h2
        · left; exact h2
        · rcases h2 with ⟨q, hq, hq1⟩
          right; exact ⟨q, List.mem_cons_of_mem _ hq, hq1⟩

/-- `mapInsert m k v` contains an entry with key `k`. -/
theorem mapInsert_contains (m : List (Value × Value)) (k v : Value) :
    ∃ p ∈ mapInsert m k v, p.1 = k := by
  induction m with
  | nil => exact ⟨(k, v), by simp [mapInsert]⟩
  | cons hd tl ih =>
    rcases hd with ⟨k2, v2⟩
    by_cases hk : k2 = k
    · exact ⟨(k2, v), by simp [mapInsert, if_pos hk, hk]⟩
    · rcases ih with ⟨p, hp, hp1⟩
      exact ⟨p, by simp [mapInsert, if_neg hk, hp], hp1⟩

/-- Keys present in `m` stay present in `mapInsert m k v`. -/
theorem mapInsert_preserves {m : List (Value × Value)} {t : Value} (k v : Value)
    (h : ∃ q ∈ m, q.1 = t) : ∃ p ∈ mapInsert m k v, p.1 = t := by
  induction m with
  | nil => simp at h
  | cons hd tl ih =>
    rcases hd with ⟨k2, v2⟩
    by_cases hk : k2 = k
    · rcases h with ⟨q, hq, hq1⟩
      rcases List.mem_cons.mp hq with h2 | h2
      · exact ⟨(k2, v), by simp [mapInsert, if_pos hk], by rw [← hq1, h2]⟩
      · exact ⟨q, by simp [mapInsert, if_pos hk, h2], hq1⟩
    · rcases h with ⟨q, hq, hq1⟩
      rcases List.mem_cons.mp hq with h2 | h2
      · exact ⟨(k2, v2), by simp [mapInsert, if_neg hk], by rw [← hq1, h2]⟩
      · rcases ih ⟨q, h2, hq1⟩ with ⟨p, hp, hp1⟩
        exact ⟨p, by simp [mapInsert, if_neg hk, hp], hp1⟩

/-- `mapInsert` preserves distinctness of keys. -/
theorem mapInsert_pairwise {m : List (Value × Value)} {k v : Value}
    (h : m.Pairwise (fun p q => p.1 ≠ q.1)) :
    (mapInsert m k v).Pairwise (fun p q => p.1 ≠ q.1) := by
  induction m with
  | nil => simp [mapInsert]
  | cons hd tl ih =>
    rcases hd with ⟨k2, v2⟩
    rcases List.pairwise_cons.mp h with ⟨hhd, htl⟩
    by_cases hk : k2 = k
    · rw [mapInsert, if_pos hk]
      exact List.pairwise_cons.mpr ⟨hhd, htl⟩
    · rw [mapInsert, if_neg hk]
      refine List.pairwise_cons.mpr ⟨?_, ih htl⟩
      intro p hp
      rcases mapInsert_mem_key p hp with h2 | h2
      · rw [h2]; exact hk
      · rcases h2 with ⟨q, hq, hq1⟩
        rw [← hq1]
        exact hhd q hq

/-- The map loop, run from any accumulator with all-`true` payloads and
distinct keys, succeeds when every key transforms successfully, and
returns a map whose payloads are all `true`, whose keys are distinct and
are exactly the transformed keys plus the accumulator keys. -/
theorem goMap_spec (attr nm : String) (ar : List String)
    {es : List (Value × Value)} {ts : List Value}
    (h : List.Forall₂ (fun kv t => (Parse attr nm ar kv.1).2 = .ok t) es ts) :
    ∀ acc : List (Value × Value),
      (∀ p ∈ acc, p.2 = Value.bool true) →
      acc.Pairwise (fun p q => p.1 ≠ q.1) →
      ∃ out, goMap attr nm ar es acc = .ok out ∧
        (∀ p ∈ out, p.2 = Value.bool true) ∧
        out.Pairwise (fun p q => p.1 ≠ q.1) ∧
        (∀ p ∈ out, p.1 ∈ ts ∨ ∃ q ∈ acc, q.1 = p.1) ∧
        (∀ t ∈ ts, ∃ p ∈ out, p.1 = t) ∧
        (∀ t, (∃ q ∈ acc, q.1 = t) → ∃ p ∈ out, p.1 = t) := by
  induction h with
  | nil =>
    intro acc hv hp
    refine ⟨acc, by simp [goMap], hv, hp, ?_, by simp, fun t ht => ht⟩
    intro p hp2
    exact Or.inr ⟨p, hp2, rfl⟩
  | @cons kv t rest ts2 hkt _ ih =>
    rcases kv with ⟨k, pv⟩
    intro acc hv hp
    rcases hE : Parse attr nm ar k with ⟨st, res⟩
    rw [hE] at hkt
    simp only at hkt
    subst hkt
    have hv2 : ∀ p ∈ mapInsert acc t (.bool true), p.2 = Value.bool true := by
      intro p hp2
      rcases mapInsert_mem_payload p hp2 with h2 | h2
      · exact h2
      · exact hv p h2
    have hp2 : (mapInsert acc t (.bool true)).Pairwise (fun p q => p.1 ≠ q.1) :=
      mapInsert_pairwise hp
    rcases ih (mapInsert acc t (.bool true)) hv2 hp2 with
      ⟨out, hgo, hov, hop, hok, hots, hopres⟩
    refine ⟨out, ?_, hov, hop, ?_, ?_, ?_⟩
    · simp [goMap, hE, hgo]
    · intro p hpo
      rcases hok p hpo with h2 | h2
      · exact Or.inl (List.mem_cons_of_mem _ h2)
      · rcases h2 with ⟨q, hq, hq1⟩
        rcases mapInsert_mem_key q hq with h3 | h3
        · rw [← hq1, h3]; exact Or.inl (List.mem_cons_self _ _)
        · rcases h3 with ⟨q2, hq2, hq21⟩
          exact Or.inr ⟨q2, hq2, by rw [hq21, hq1]⟩
    · intro t2 ht2
      rcases List.mem_cons.mp ht2 with h2 | h2
      · subst h2
        exact hopres t2 (mapInsert_contains acc t2 (.bool true))
      · exact hots t2 h2
    · intro t2 ht2
      exact hopres t2 (mapInsert_preserves t (.bool true) ht2)

/-- C10: `Parse` is not defined for a nil value: classification calls
`reflect.TypeOf(p.Value).Kind()`, and for a nil value `reflect.TypeOf`
returns the nil `reflect.Type`, so the `Kind()` call panics; there is no
non-panicking behaviour, making a non-nil value a precondition of every
top-level call. -/
theorem parse_nil_panics (attr nm : String) (ar : List String) :
    Parse attr nm ar .nil = (.nil, .error .panicNilValue) ∧
    PError.isPanic .panicNilValue = true :=
  ⟨by simp [Parse], rfl⟩

/-- C1: on a scalar request, the modifier name is matched
case-insensitively against exactly `FORMAT`, `UPPER` and `LOWER`; every
name that does not normalize to one of these three (the empty name
included) makes the call return `NotImplemented(name, attribute)` built
from the original name and attribute — never the value unchanged. -/
theorem unknown_modifier_not_implemented (attr nm : String) (ar : List String) (v : Value)
    (hs : isScalar v = true)
    (h1 : upper nm ≠ "FORMAT") (h2 : upper nm ≠ "UPPER") (h3 : upper nm ≠ "LOWER") :
    Parse attr nm ar v = (v, .error (.notImplemented nm attr)) := by
  rw [Parse_scalar_eq attr nm ar v hs]
  simp [parseScalar, h1, h2, h3]

theorem unknown_modifier_not_implemented_witness :
    isScalar (.str "x") = true ∧
    upper "FOO" ≠ "FORMAT" ∧ upper "FOO" ≠ "UPPER" ∧ upper "FOO" ≠ "LOWER" ∧
    Parse "attr" "FOO" [] (.str "x") = (.str "x", .error (.notImplemented "FOO" "attr")) :=
  ⟨rfl, by decide, by decide, by decide,
    unknown_modifier_not_implemented "attr" "FOO" [] (.str "x") rfl
      (by decide) (by decide) (by decide)⟩

/-- C3: on a sequence whose elements all transform successfully, the
result is the sequence of transformed elements: the element at each index
is the transform of the input element at that index, and length and order
are preserved. -/
theorem seq_all_ok_preserves_order (attr nm : String) (ar : List String)
    {l ts : List Value}
    (h : List.Forall₂ (fun v t => (Parse attr nm ar v).2 = .ok t) l ts) :
    Parse attr nm ar (.list l) = (.list ts, .ok (.list ts)) ∧ ts.length = l.length := by
  refine ⟨?_, h.length_eq.symm⟩
  rw [Parse_list_eq, goList_all_ok attr nm ar h]

theorem seq_all_ok_preserves_order_witness :
    List.Forall₂ (fun v t => (Parse "x" "UPPER" [] v).2 = .ok t)
      [Value.str "a", Value.str "b"] [Value.str "A", Value.str "B"] ∧
    Parse "x" "UPPER" [] (.list [.str "a", .str "b"])
      = (.list [.str "A", .str "B"], .ok (.list [.str "A", .str "B"])) := by
  have h1 : (Parse "x" "UPPER" [] (.str "a")).2 = .ok (.str "A") := by
    rw [Parse_scalar_eq "x" "UPPER" [] (.str "a") rfl]
    exact rfl
  have h2 : (Parse "x" "UPPER" [] (.str "b")).2 = .ok (.str "B") := by
    rw [Parse_scalar_eq "x" "UPPER" [] (.str "b") rfl]
    exact rfl
  have hf : List.Forall₂ (fun v t => (Parse "x" "UPPER" [] v).2 = .ok t)
      [Value.str "a", Value.str "b"] [Value.str "A", Value.str "B"] :=
    .cons h1 (.cons h2 .nil)
  exact ⟨hf, (seq_all_ok_preserves_order "x" "UPPER" [] hf).1⟩

/-- C4: when the elements before index `k` of a sequence transform
successfully and the element at index `k` fails with error `e`, the whole
call fails with exactly `e`, and the underlying sequence keeps the
transformed elements at indices below `k` (no rollback), the failing slot
in its own final state, and the untouched suffix: the operation is not
atomic on failure. -/
theorem seq_failure_partial_mutation (attr nm : String) (ar : List String)
    {pre ts : List Value} (x : Value) (suf : List Value) {e : PError}
    (hpre : List.Forall₂ (fun v t => (Parse attr nm ar v).2 = .ok t) pre ts)
    (hx : (Parse attr nm ar x).2 = .error e) :
    Parse attr nm ar (.list (pre ++ x :: suf)) =
      (.list (ts ++ (Parse attr nm ar x).1 :: suf), .error e) ∧
    ts.length = pre.length := by
  refine ⟨?_, hpre.length_eq.symm⟩
  rw [Parse_list_eq, goList_error attr nm ar x suf hpre hx]

theorem seq_failure_partial_mutation_witness :
    (Parse "size" "FORMAT" ["KB"] (.str "x")).2 = .error (.floatParseErr "x") ∧
    (Parse "size" "FORMAT" ["KB"] (.str "2")).2 = .ok (.num 2048) ∧
    Parse "size" "FORMAT" ["KB"] (.list [.str "2", .str "x", .str "3"])
      = (.list [.num 2048, .str "x", .str "3"], .error (.floatParseErr "x")) := by
  have hx : (Parse "size" "FORMAT" ["KB"] (.str "x")).2 = .error (.floatParseErr "x") := by
    rw [Parse_scalar_eq "size" "FORMAT" ["KB"] (.str "x") rfl]
    exact rfl
  have h1 : (Parse "size" "FORMAT" ["KB"] (.str "2")).2 = .ok (.num 2048) := by
    rw [Parse_scalar_eq "size" "FORMAT" ["KB"] (.str "2") rfl]
    show parseScalar "size" "FORMAT" ["KB"] (.str "2") = .ok (.num 2048)
    have h0 : parseScalar "size" "FORMAT" ["KB"] (.str "2")
        = .ok (.num (partsVal ⟨false, 2, 0, false, 0⟩ * 1024)) := rfl
    rw [h0]; norm_num [partsVal]
  have hf : List.Forall₂ (fun v t => (Parse "size" "FORMAT" ["KB"] v).2 = .ok t)
      [Value.str "2"] [Value.num 2048] := .cons h1 .nil
  have hm := (seq_failure_partial_mutation "size" "FORMAT" ["KB"]
    (.str "x") [.str "3"] hf hx).1
  have hst : (Parse "size" "FORMAT" ["KB"] (.str "x")).1 = .str "x" := by
    rw [Parse_scalar_eq "size" "FORMAT" ["KB"] (.str "x") rfl]
  rw [hst] at hm
  exact ⟨hx, h1, by simpa using hm⟩

/-- C2: on a map value, the result is a brand-new map that, for each key
of the input, holds exactly one entry mapping the recursively transformed
key to the boolean sentinel `true`: every output payload is `true` (the
original payloads are not carried over), output keys are distinct, and
the output key set is exactly the set of transformed input keys.  The
recursive sub-request receives the key, never the associated payload, as
its value. -/
theorem map_transforms_keys_to_true (attr nm : String) (ar : List String)
    {es : List (Value × Value)} {ts : List Value}
    (h : List.Forall₂ (fun kv t => (Parse attr nm ar kv.1).2 = .ok t) es ts) :
    ∃ out, Parse attr nm ar (.map es) = (.map es, .ok (.map out)) ∧
      (∀ p ∈ out, p.2 = Value.bool true) ∧
      out.Pairwise (fun p q => p.1 ≠ q.1) ∧
      (∀ p ∈ out, p.1 ∈ ts) ∧
      (∀ t ∈ ts, ∃ p ∈ out, p.1 = t) := by
  rcases goMap_spec attr nm ar h [] (by simp) (by simp) with
    ⟨out, hgo, hov, hop, hok, hots, _⟩
  refine ⟨out, ?_, hov, hop, ?_, hots⟩
  · rw [Parse_map_eq, hgo]
  · intro p hp
    rcases hok p hp with h2 | h2
    · exact h2
    · simp at h2

theorem map_transforms_keys_to_true_witness :
    List.Forall₂ (fun (kv : Value × Value) t => (Parse "x" "UPPER" [] kv.1).2 = .ok t)
      [(Value.str "a", Value.str "p"), (Value.str "b", Value.str "q")]
      [Value.str "A", Value.str "B"] ∧
    (∃ out, Parse "x" "UPPER" [] (.map [(.str "a", .str "p"), (.str "b", .str "q")])
      = (.map [(.str "a", .str "p"), (.str "b", .str "q")], .ok (.map out)) ∧
      (∀ p ∈ out, p.2 = Value.bool true) ∧
      out.Pairwise (fun p q => p.1 ≠ q.1) ∧
      (∀ p ∈ out, p.1 ∈ [Value.str "A", Value.str "B"]) ∧
      (∀ t ∈ [Value.str "A", Value.str "B"], ∃ p ∈ out, p.1 = t)) := by
  have h1 : (Parse "x" "UPPER" [] (Value.str "a")).2 = .ok (.str "A") := by
    rw [Parse_scalar_eq "x" "UPPER" [] (.str "a") rfl]
    exact rfl
  have h2 : (Parse "x" "UPPER" [] (Value.str "b")).2 = .ok (.str "B") := by
    rw [Parse_scalar_eq "x" "UPPER" [] (.str "b") rfl]
    exact rfl
  have hf : List.Forall₂ (fun (kv : Value × Value) t => (Parse "x" "UPPER" [] kv.1).2 = .ok t)
      [(Value.str "a", Value.str "p"), (Value.str "b", Value.str "q")]
      [Value.str "A", Value.str "B"] :=
    .cons h1 (.cons h2 .nil)
  exact ⟨hf, map_transforms_keys_to_true "x" "UPPER" [] hf⟩

/-- C5: a FORMAT request for attribute `size` whose string value parses
as the decimal number `x` scales `x` by 1, 2^10 or 2^20 when `args[0]`
matches `B`, `KB` or `MB` case-insensitively, and returns
`UnsupportedFormat(args[0], "size")` for any unit other than
`B`/`KB`/`MB`/`GB`. -/
theorem size_units_scaling (nm u : String) (rest : List String) (s : String) (x : ℚ)
    (hnm : upper nm = "FORMAT") (hx : parseFloat s = some x) :
    (upper u = "B" → Parse "size" nm (u :: rest) (.str s)
      = (.str s, .ok (.num (x * 1)))) ∧
    (upper u = "KB" → Parse "size" nm (u :: rest) (.str s)
      = (.str s, .ok (.num (x * 2 ^ 10)))) ∧
    (upper u = "MB" → Parse "size" nm (u :: rest) (.str s)
      = (.str s, .ok (.num (x * 2 ^ 20)))) ∧
    (upper u ≠ "B" → upper u ≠ "KB" → upper u ≠ "MB" → upper u ≠ "GB" →
      Parse "size" nm (u :: rest) (.str s)
        = (.str s, .error (.unsupportedFormat u "size"))) := by
  have h10 : (2 : ℚ) ^ 10 = 1024 := by norm_num
  have h20 : (2 : ℚ) ^ 20 = 1048576 := by norm_num
  refine ⟨fun hu => ?_, fun hu => ?_, fun hu => ?_, fun h1 h2 h3 h4 => ?_⟩
  · rw [Parse_scalar_eq "size" nm (u :: rest) (.str s) rfl]
    simp [parseScalar, pFormat, pFormatSize, hnm, hx, hu]
  · rw [Parse_scalar_eq "size" nm (u :: rest) (.str s) rfl, h10]
    simp [parseScalar, pFormat, pFormatSize, hnm, hx, hu]
  · rw [Parse_scalar_eq "size" nm (u :: rest) (.str s) rfl, h20]
    simp [parseScalar, pFormat, pFormatSize, hnm, hx, hu]
  · rw [Parse_scalar_eq "size" nm (u :: rest) (.str s) rfl]
    simp [parseScalar, pFormat, pFormatSize, hnm, hx, h1, h2, h3, h4]

theorem size_units_scaling_witness :
    upper "FORMAT" = "FORMAT" ∧ parseFloat "2" = some 2 ∧ upper "KB" = "KB" ∧
    Parse "size" "FORMAT" ["KB"] (.str "2") = (.str "2", .ok (.num 2048)) := by
  have hx : parseFloat "2" = some 2 := by
    have h0 : parseFloat "2" = some (partsVal ⟨false, 2, 0, false, 0⟩) := rfl
    rw [h0]; norm_num [partsVal]
  have h := (size_units_scaling "FORMAT" "KB" [] "2" 2 rfl hx).2.1 rfl
  have h2 : (2 : ℚ) * 2 ^ 10 = 2048 := by norm_num
  rw [h2] at h
  exact ⟨rfl, hx, rfl, h⟩

/-- C6: a FORMAT request for attribute `size` with unit `GB` (matched
case-insensitively) scales the parsed number by 2^20 — the same factor
as `MB`, not 2^30 — so the whole call is indistinguishable from the same
call with unit `MB`. -/
theorem size_gb_scales_like_mb (nm u : String) (rest : List String) (s : String) (x : ℚ)
    (hnm : upper nm = "FORMAT") (hx : parseFloat s = some x) (hu : upper u = "GB") :
    Parse "size" nm (u :: rest) (.str s) = (.str s, .ok (.num (x * 2 ^ 20))) ∧
    Parse "size" nm (u :: rest) (.str s) = Parse "size" nm ("MB" :: rest) (.str s) := by
  have h20 : (2 : ℚ) ^ 20 = 1048576 := by norm_num
  constructor
  · rw [Parse_scalar_eq "size" nm (u :: rest) (.str s) rfl, h20]
    simp [parseScalar, pFormat, pFormatSize, hnm, hx, hu]
  · rw [Parse_scalar_eq "size" nm (u :: rest) (.str s) rfl,
      Parse_scalar_eq "size" nm ("MB" :: rest) (.str s) rfl]
    have hmb : upper "MB" = "MB" := rfl
    simp [parseScalar, pFormat, pFormatSize, hnm, hx, hu, hmb]

theorem size_gb_scales_like_mb_witness :
    upper "FORMAT" = "FORMAT" ∧ parseFloat "1" = some 1 ∧ upper "GB" = "GB" ∧
    Parse "size" "FORMAT" ["GB"] (.str "1") = (.str "1", .ok (.num 1048576)) := by
  have hx : parseFloat "1" = some 1 := by
    have h0 : parseFloat "1" = some (partsVal ⟨false, 1, 0, false, 0⟩) := rfl
    rw [h0]; norm_num [partsVal]
  have h := (size_gb_scales_like_mb "FORMAT" "GB" [] "1" 1 rfl hx rfl).1
  have h2 : (1 : ℚ) * 2 ^ 20 = 1048576 := by norm_num
  rw [h2] at h
  exact ⟨rfl, hx, rfl, h⟩

/-- C7 counterexample: a scalar FORMAT request whose attribute is not
`name`, `size` or `time` returns `UnsupportedFormat(args[0], attribute)`,
not the `NotImplemented(name, attribute)` error the claim states. -/
theorem format_unknown_attr_cx :
    Parse "foo" "FORMAT" ["x"] (.str "v")
      = (.str "v", .error (.unsupportedFormat "x" "foo")) ∧
    PError.unsupportedFormat "x" "foo" ≠ PError.notImplemented "FORMAT" "foo" := by
  constructor
  · rw [Parse_scalar_eq "foo" "FORMAT" ["x"] (.str "v") rfl]
    exact rfl
  · intro h
    exact PError.noConfusion h

/-- C7 (amended): a scalar FORMAT request with non-empty args whose
attribute is not `name`, `size` or `time` returns
`UnsupportedFormat(args[0], attribute)`. -/
theorem format_unknown_attr_unsupported (attr nm u : String) (rest : List String) (v : Value)
    (hnm : upper nm = "FORMAT") (hs : isScalar v = true)
    (h1 : attr ≠ "name") (h2 : attr ≠ "size") (h3 : attr ≠ "time") :
    Parse attr nm (u :: rest) v = (v, .error (.unsupportedFormat u attr)) := by
  rw [Parse_scalar_eq attr nm (u :: rest) v hs]
  simp [parseScalar, pFormat, hnm, h1, h2, h3]

theorem format_unknown_attr_unsupported_witness :
    upper "FORMAT" = "FORMAT" ∧ isScalar (Value.num 7) = true ∧
    ("mode" : String) ≠ "name" ∧ ("mode" : String) ≠ "size" ∧ ("mode" : String) ≠ "time" ∧
    Parse "mode" "FORMAT" ["x"] (.num 7) = (.num 7, .error (.unsupportedFormat "x" "mode")) :=
  ⟨rfl, rfl, by decide, by decide, by decide,
    format_unknown_attr_unsupported "mode" "FORMAT" "x" [] (.num 7) rfl rfl
      (by decide) (by decide) (by decide)⟩

/-- C8 counterexample: `UPPER` on a non-string scalar does not fail with
an explicit type-mismatch error; the unchecked type assertion
`p.Value.(string)` panics — an uncontrolled runtime failure. -/
theorem case_modifier_non_string_cx :
    Parse "a" "UPPER" [] (.num 3) = (.num 3, .error (.panicTypeAssert "string")) ∧
    PError.isPanic (.panicTypeAssert "string") = true := by
  constructor
  · rw [Parse_scalar_eq "a" "UPPER" [] (.num 3) rfl]
    exact rfl
  · rfl

/-- C8 (amended): on a scalar request with modifier `UPPER` or `LOWER`,
a string value is converted with the locale-insensitive case mapping,
while a non-string value makes the call panic on the failed type
assertion (an uncontrolled runtime failure) rather than return a
structured type-mismatch error. -/
theorem case_modifier_behavior (attr nm : String) (ar : List String) (v : Value)
    (hnm : upper nm = "UPPER" ∨ upper nm = "LOWER") (hs : isScalar v = true) :
    (∀ s, v = .str s → Parse attr nm ar v
      = (v, .ok (.str (if upper nm = "UPPER" then upper s else lower s)))) ∧
    (isStr v = false →
      Parse attr nm ar v = (v, .error (.panicTypeAssert "string")) ∧
      PError.isPanic (.panicTypeAssert "string") = true) := by
  have hA : ("UPPER" : String) ≠ "FORMAT" := by decide
  have hB : ("LOWER" : String) ≠ "FORMAT" := by decide
  have hC : ("LOWER" : String) ≠ "UPPER" := by decide
  constructor
  · rintro s rfl
    rw [Parse_scalar_eq attr nm ar (.str s) hs]
    rcases hnm with h | h
    · simp [parseScalar, h, hA]
    · simp [parseScalar, h, hB, hC]
  · intro hv
    refine ⟨?_, rfl⟩
    rw [Parse_scalar_eq attr nm ar v hs]
    cases v with
    | str s => simp [isStr] at hv
    | num q => rcases hnm with h | h
               · simp [parseScalar, h, hA]
               · simp [parseScalar, h, hB, hC]
    | bool b => rcases hnm with h | h
                · simp [parseScalar, h, hA]
                · simp [parseScalar, h, hB, hC]
    | time t => rcases hnm with h | h
                · simp [parseScalar, h, hA]
                · simp [parseScalar, h, hB, hC]
    | nil => simp [isScalar] at hs
    | list es => simp [isScalar] at hs
    | map es => simp [isScalar] at hs

theorem case_modifier_behavior_witness :
    (upper "lower" = "UPPER" ∨ upper "lower" = "LOWER") ∧
    isScalar (Value.str "AbC") = true ∧
    Parse "x" "lower" [] (.str "AbC") = (.str "AbC", .ok (.str "abc")) := by
  have h := (case_modifier_behavior "x" "lower" [] (.str "AbC")
    (Or.inr rfl) rfl).1 "AbC" rfl
  have hite : (if upper "lower" = "UPPER" then upper "AbC" else lower "AbC") = "abc" := rfl
  rw [hite] at h
  exact ⟨Or.inr rfl, rfl, h⟩

/-- C9 counterexample: a FORMAT/time request with empty args does not
select the fallback layout — reading `p.Args[0]` panics with an index
out of range, even on a value the fallback layout would parse. -/
theorem time_empty_args_cx :
    Parse "time" "FORMAT" [] (.str "Jan 02 2006 15 04")
      = (.str "Jan 02 2006 15 04", .error (.panicIndexRange 0)) ∧
    PError.isPanic (.panicIndexRange 0) = true ∧
    parseDefaultLayout "Jan 02 2006 15 04" = some ⟨2006, 1, 2, 15, 4, 0, 0⟩ := by
  refine ⟨?_, rfl, rfl⟩
  rw [Parse_scalar_eq "time" "FORMAT" [] (.str "Jan 02 2006 15 04") rfl]
  exact rfl

/-- C9 (amended): a FORMAT/time request selects the parse layout from
`args[0]` case-insensitively — `ISO` the RFC 3339 ISO-8601 extended
layout, `UNIX` the textual date-command-style layout, and any other
present `args[0]` the fixed layout `Jan 02 2006 15 04` (month
abbreviation, two-digit day, four-digit year, hour and minute only); a
successful parse yields a structured time value and a failed parse
forwards the parser error; a missing `args[0]` (empty args) panics
instead of selecting the fallback layout. -/
theorem time_layout_selection (nm u : String) (rest : List String) (s : String)
    (hnm : upper nm = "FORMAT") :
    (upper u = "ISO" → Parse "time" nm (u :: rest) (.str s)
      = (.str s, timeWrap (timeParse rfc3339Layout s))) ∧
    (upper u = "UNIX" → Parse "time" nm (u :: rest) (.str s)
      = (.str s, timeWrap (timeParse unixDateLayout s))) ∧
    (upper u ≠ "ISO" → upper u ≠ "UNIX" → Parse "time" nm (u :: rest) (.str s)
      = (.str s, timeWrap (timeParse defaultTimeLayout s))) ∧
    Parse "time" nm [] (.str s) = (.str s, .error (.panicIndexRange 0)) := by
  refine ⟨fun hu => ?_, fun hu => ?_, fun hu1 hu2 => ?_, ?_⟩
  · rw [Parse_scalar_eq "time" nm (u :: rest) (.str s) rfl]
    cases hres : timeParse rfc3339Layout s <;>
      simp [parseScalar, pFormat, pFormatTime, hnm, hu, timeWrap, hres]
  · rw [Parse_scalar_eq "time" nm (u :: rest) (.str s) rfl]
    cases hres : timeParse unixDateLayout s <;>
      simp [parseScalar, pFormat, pFormatTime, hnm, hu, timeWrap, hres]
  · rw [Parse_scalar_eq "time" nm (u :: rest) (.str s) rfl]
    cases hres : timeParse defaultTimeLayout s <;>
      simp [parseScalar, pFormat, pFormatTime, hnm, hu1, hu2, timeWrap, hres]
  · rw [Parse_scalar_eq "time" nm [] (.str s) rfl]
    simp [parseScalar, pFormat, pFormatTime, hnm]

theorem time_layout_selection_witness :
    upper "FORMAT" = "FORMAT" ∧ upper "iso" = "ISO" ∧
    timeParse rfc3339Layout "2020-01-02T15:04:05Z" = .ok ⟨2020, 1, 2, 15, 4, 5, 0⟩ ∧
    Parse "time" "FORMAT" ["iso"] (.str "2020-01-02T15:04:05Z")
      = (.str "2020-01-02T15:04:05Z", .ok (.time ⟨2020, 1, 2, 15, 4, 5, 0⟩)) := by
  have h := (time_layout_selection "FORMAT" "iso" [] "2020-01-02T15:04:05Z" rfl).1 rfl
  refine ⟨rfl, rfl, rfl, ?_⟩
  rw [h]
  exact rfl
